import Mathlib

/-!
Verification of the TerraFract terrain engine (shallow embedding).

Real values from the numpy float arrays are modelled as rationals (ℚ);
a float NaN field produced by a 0/0 division is modelled as `none` of an
`Option Grid`.  The global numpy RNG is modelled as a state `(seedId, k)`
together with an arbitrary output function `mtf : ℕ → ℕ → ℚ` standing for
the Mersenne-Twister stream (`np.random.rand` draw number `k` after
`np.random.seed seedId`).  External library routines (scipy's gaussian
filter, Voronoi vertex computation, kd-tree distance query, `noise.pnoise2`,
`np.exp`, `np.interp` resampling) are universally quantified parameters:
every theorem holds for every choice of these deterministic functions.
-/

/-- Error kinds observable from the embedded functions: `valueError` models
Python `ValueError` (unknown algorithm), `qhullError` models the
`scipy.spatial.qhull.QhullError` raised by the Voronoi construction on too
few sites, `invalidParameter` is the spec's InvalidParameter kind (the
source never raises it). -/
inductive TerraError where
  | valueError : TerraError
  | qhullError : TerraError
  | invalidParameter : TerraError
deriving DecidableEq

/-- A dense 2-D grid of rationals; `data` outside the `rows × cols` window is
irrelevant junk (numpy arrays only store the window). -/
structure Grid where
  rows : ℕ
  cols : ℕ
  data : ℕ → ℕ → ℚ

/-- Python `range(start, stop, step)` for a positive step. -/
def pyRange (start stop step : ℕ) : List ℕ :=
  (List.range ((stop - start + step - 1) / step)).map (fun i => start + i * step)

/-- Row-major list of the in-bounds entries (`A.ravel()` order). -/
def Grid.values (g : Grid) : List ℚ :=
  (List.range g.rows).flatMap (fun i => (List.range g.cols).map (fun j => g.data i j))

/-- Minimum of a list of rationals (0 for the empty list; numpy `A.min()` on
the nonempty ravel). -/
def listMin : List ℚ → ℚ
  | [] => 0
  | v :: l => l.foldl min v

/-- Maximum of a list of rationals (0 for the empty list). -/
def listMax : List ℚ → ℚ
  | [] => 0
  | v :: l => l.foldl max v

/-- Model of `A.min()`. -/
def Grid.minVal (g : Grid) : ℚ := listMin g.values

/-- Model of `A.max()`. -/
def Grid.maxVal (g : Grid) : ℚ := listMax g.values

/-- Pointwise map over a grid (numpy elementwise ufunc). -/
def Grid.map (g : Grid) (f : ℚ → ℚ) : Grid := ⟨g.rows, g.cols, fun i j => f (g.data i j)⟩

/-- Model of the in-place `A -= A.min()`. -/
def subMinG (g : Grid) : Grid := g.map (fun v => v - g.minVal)

/-- Model of the guarded in-place division `if A.max() > 0: A /= A.max()`
used by the post-processing stages. -/
def divMaxG (g : Grid) : Grid :=
  if 0 < g.maxVal then g.map (fun v => v / g.maxVal) else g

/-- The guarded normalization used by `thermal_erosion`, `hydraulic_erosion`
and `voronoi_cliffs`: subtract the minimum, then divide by the maximum only
when it is positive. -/
def normalizeG (g : Grid) : Grid := divMaxG (subMinG g)

/-- The unguarded normalization at the end of `DiamondSquareGenerator.generate`
and `FBMGenerator.generate`: `grid -= grid.min(); grid /= grid.max()`.
When the shifted maximum is zero the float division yields an all-NaN array
(numpy 0/0), modelled as `none`. -/
def normalizeUnguarded (g : Grid) : Option Grid :=
  let g1 := subMinG g
  if g1.maxVal = 0 then none else some (g1.map (fun v => v / g1.maxVal))

/-- Same dimensions and same in-bounds contents (out-of-window junk of the
`data` representation is ignored, as numpy would). -/
def Grid.Equiv (g h : Grid) : Prop :=
  g.rows = h.rows ∧ g.cols = h.cols ∧
    ∀ i, i < g.rows → ∀ j, j < g.cols → g.data i j = h.data i j

instance (g h : Grid) : Decidable (Grid.Equiv g h) := by
  unfold Grid.Equiv; infer_instance

/-- State of the global numpy RNG: the seed last passed to `np.random.seed`
and the number of draws consumed since. -/
abbrev RS := ℕ × ℕ

section Generators

/- The Mersenne-Twister output stream: `mtf sd k` is draw number `k` of
`np.random.rand()` after `np.random.seed sd`.  Kept abstract: every theorem
holds for every stream. -/
variable (mtf : ℕ → ℕ → ℚ)

/-- One `np.random.rand()` draw from the global state. -/
def rand (s : RS) : ℚ × RS := (mtf s.1 s.2, (s.1, s.2 + 1))

/-- `np.random.seed(seed)` in `HeightMapGenerator.__init__`: a concrete seed
resets the global state, `None` leaves it untouched. -/
def seedRS (seed : Option ℕ) (s : RS) : RS :=
  match seed with
  | some sd => (sd, 0)
  | none => s

/-- `_next_pow2_plus1`: the smallest `2^k + 1 ≥ n`.  `Nat.clog 2` is
`ceil(log2 ·)`, the exact value of `int(np.ceil(np.log2(n - 1)))` on the
non-power-of-two arguments this is called with. -/
def next_pow2_plus1 (n : ℕ) : ℕ := 2 ^ Nat.clog 2 (n - 1) + 1

/-- The size adjustment at the top of `DiamondSquareGenerator.generate`:
the returned flag records whether the `warnings.warn` resize fired. -/
def dsSize (size : ℕ) : ℕ × Bool :=
  if (size - 1) &&& (size - 2) ≠ 0 then (next_pow2_plus1 size, true) else (size, false)

/-- Pointwise update of a 2-D function (numpy `A[i, j] = v`). -/
def upd (f : ℕ → ℕ → ℚ) (i j : ℕ) (v : ℚ) : ℕ → ℕ → ℚ :=
  fun a b => if a = i ∧ b = j then v else f a b

/-- The diamond step of one pass: centers of all step-aligned squares get the
corner average plus a scaled perturbation, scanning x then y as the source
loops do. -/
def diamondStep (n step half : ℕ) (scale : ℚ) (gs : (ℕ → ℕ → ℚ) × RS) :
    (ℕ → ℕ → ℚ) × RS :=
  (pyRange 0 (n - 1) step).foldl (fun acc x =>
    (pyRange 0 (n - 1) step).foldl (fun acc y =>
      let g := acc.1
      let avg := (g x y + g (x + step) y + g x (y + step) + g (x + step) (y + step)) * (1/4)
      let r := rand mtf acc.2
      (upd g (x + half) (y + half) (avg + (r.1 - 1/2) * scale), r.2)) acc) gs

/-- The square step of one pass: each diamond-offset midpoint gets the mean
of its existing orthogonal neighbours at distance `half` plus a perturbation.
The bound checks mirror `x - half >= 0` etc. of the source. -/
def squareStep (n step half : ℕ) (scale : ℚ) (gs : (ℕ → ℕ → ℚ) × RS) :
    (ℕ → ℕ → ℚ) × RS :=
  (pyRange 0 n half).foldl (fun acc x =>
    (pyRange ((x + half) % step) n step).foldl (fun acc y =>
      let g := acc.1
      let vals : List ℚ :=
        (if half ≤ x then [g (x - half) y] else []) ++
        (if x + half < n then [g (x + half) y] else []) ++
        (if half ≤ y then [g x (y - half)] else []) ++
        (if y + half < n then [g x (y + half)] else [])
      let avg := vals.sum / (vals.length : ℚ)
      let r := rand mtf acc.2
      (upd g x y (avg + (r.1 - 1/2) * scale), r.2)) acc) gs

/-- The `while step_size > 1` loop of `DiamondSquareGenerator.generate`,
unrolled on an explicit pass counter: each pass runs a diamond and a square
step, then halves the step and the amplitude.  Called with counter
`Nat.log2 step`, the exact number of halvings the while loop performs. -/
def dsRounds (n : ℕ) : ℕ → ℕ → ℚ → (ℕ → ℕ → ℚ) × RS → (ℕ → ℕ → ℚ) × RS
  | 0, _, _, gs => gs
  | k + 1, step, scale, gs =>
      let half := step / 2
      dsRounds n k half (scale * (1/2))
        (squareStep mtf n step half scale (diamondStep mtf n step half scale gs))

/-- `DiamondSquareGenerator.generate`: size rounding, random corners, the
subdivision loop, then the unguarded normalization (`none` = the NaN field
of a degenerate constant grid). -/
def dsGenerate (size : ℕ) (roughness : ℚ) (s : RS) : Option Grid × RS :=
  let n := (dsSize size).1
  let r1 := rand mtf s
  let r2 := rand mtf r1.2
  let r3 := rand mtf r2.2
  let r4 := rand mtf r3.2
  let g0 : ℕ → ℕ → ℚ := fun _ _ => 0
  let g1 := upd g0 0 0 r1.1
  let g2 := upd g1 0 (n - 1) r2.1
  let g3 := upd g2 (n - 1) 0 r3.1
  let g4 := upd g3 (n - 1) (n - 1) r4.1
  let res := dsRounds mtf n (Nat.log2 (n - 1)) (n - 1) roughness (g4, r4.2)
  (normalizeUnguarded ⟨n, n, res.1⟩, res.2)

end Generators

/-! Thermal erosion (`_thermal_core`, `thermal_erosion`). -/

/-- The four orthogonal neighbour offsets `((1,0),(-1,0),(0,1),(0,-1))` of the
erosion cores, in source order (truncated subtraction is harmless: the cores
only visit interior cells, whose coordinates are at least 1). -/
def nbrs (c : ℕ × ℕ) : List (ℕ × ℕ) :=
  [(c.1 + 1, c.2), (c.1 - 1, c.2), (c.1, c.2 + 1), (c.1, c.2 - 1)]

/-- Amount moved from cell `c` toward neighbour `x` in one thermal pass read
from snapshot `Z`: half the slope excess over the talus angle, when positive. -/
def transferAmt (t : ℚ) (Z : ℕ → ℕ → ℚ) (c x : ℕ × ℕ) : ℚ :=
  if t < Z c.1 c.2 - Z x.1 x.2 then (1/2) * (Z c.1 c.2 - Z x.1 x.2 - t) else 0

/-- In-place point update `d[c] = f d[c]` of a delta buffer. -/
def updAt (d : ℕ → ℕ → ℚ) (c : ℕ × ℕ) (f : ℚ → ℚ) : ℕ → ℕ → ℚ :=
  fun a b => if (a, b) = c then f (d a b) else d a b

/-- Body of the `for di, dj in ...` loop of `_thermal_core`: for each
neighbour beyond the talus threshold, `delta[i,j] -= tr; delta[nb] += tr`.
Reads heights only from the snapshot `Z`. -/
def cellTransfer (t : ℚ) (Z : ℕ → ℕ → ℚ) (delta : ℕ → ℕ → ℚ) (c : ℕ × ℕ) :
    ℕ → ℕ → ℚ :=
  (nbrs c).foldl (fun d nb =>
    if t < Z c.1 c.2 - Z nb.1 nb.2 then
      updAt (updAt d c (fun v => v - (1/2) * (Z c.1 c.2 - Z nb.1 nb.2 - t))) nb
        (fun v => v + (1/2) * (Z c.1 c.2 - Z nb.1 nb.2 - t))
    else d) delta

/-- The interior scan `for i in prange(1, n-1): for j in range(1, m-1)` in
row-major order. -/
def interiorList (n m : ℕ) : List (ℕ × ℕ) :=
  (pyRange 1 (n - 1) 1).flatMap (fun i => (pyRange 1 (m - 1) 1).map (fun j => (i, j)))

/-- The delta buffer accumulated over a list of cells (the source scans
`interiorList`; theorems show any permutation gives the same buffer). -/
def thermalDelta (t : ℚ) (Z : ℕ → ℕ → ℚ) (cells : List (ℕ × ℕ)) : ℕ → ℕ → ℚ :=
  cells.foldl (cellTransfer t Z) (fun _ _ => 0)

/-- One full iteration of `_thermal_core`: accumulate the delta buffer from
the iteration-start snapshot, then `Z_out += delta`. -/
def thermalIterData (t : ℚ) (n m : ℕ) (Z : ℕ → ℕ → ℚ) : ℕ → ℕ → ℚ :=
  fun i j => Z i j + thermalDelta t Z (interiorList n m) i j

/-- `_thermal_core`'s iteration loop, `k` passes. -/
def thermalCoreData (t : ℚ) (n m : ℕ) : ℕ → (ℕ → ℕ → ℚ) → ℕ → ℕ → ℚ
  | 0, Z => Z
  | k + 1, Z => thermalIterData t n m (thermalCoreData t n m k Z)

/-- `_thermal_core` on a grid; `for _ in range(iterations)` runs
`max iterations 0` passes, so a negative count silently degenerates to zero
passes. -/
def thermalCoreG (t : ℚ) (iters : ℤ) (g : Grid) : Grid :=
  ⟨g.rows, g.cols, thermalCoreData t g.rows g.cols iters.toNat g.data⟩

/-- `thermal_erosion(Z, iterations, talus_angle)`: guarded normalization of a
copy, the Numba core, guarded re-normalization. -/
def thermalErosion (g : Grid) (iters : ℤ) (t : ℚ) : Grid :=
  normalizeG (thermalCoreG t iters (normalizeG g))

/-- `thermal_erosion` as a fallible call.  The source body contains no
`raise` and no parameter validation, so every call returns normally. -/
def thermalErosionE (g : Grid) (iters : ℤ) (t : ℚ) : Except TerraError Grid :=
  Except.ok (thermalErosion g iters t)

/-! Hydraulic erosion (`_hydro_core`, `hydraulic_erosion`). -/

/-- Height, water and sediment fields of `_hydro_core`, in that order. -/
abbrev HTriple := (ℕ → ℕ → ℚ) × (ℕ → ℕ → ℚ) × (ℕ → ℕ → ℚ)

/-- The downslope gather of `_hydro_core`: neighbours whose height+water lies
below the cell's, with their drops, in source scan order. -/
def hydroLows (Z W : ℕ → ℕ → ℚ) (c : ℕ × ℕ) : List ((ℕ × ℕ) × ℚ) :=
  (nbrs c).filterMap (fun nb =>
    let drop := (Z c.1 c.2 + W c.1 c.2) - (Z nb.1 nb.2 + W nb.1 nb.2)
    if 0 < drop then some (nb, drop) else none)

/-- The flow-distribution loop of `_hydro_core`: water and sediment move to
each low neighbour in proportion to its drop.  The updates are in place, so
each step reads the water already reduced by the previous steps
(Gauss-Seidel, as the source does). -/
def hydroDistribute (sol : ℚ) (c : ℕ × ℕ) (lows : List ((ℕ × ℕ) × ℚ)) (total : ℚ)
    (st : HTriple) : HTriple :=
  lows.foldl (fun st l =>
    let frac := l.2 / total
    let flow := st.2.1 c.1 c.2 * frac
    let W1 := updAt st.2.1 c (fun v => v - flow)
    let W2 := updAt W1 l.1 (fun v => v + flow)
    let Z1 := updAt st.1 c (fun v => v - sol * flow)
    let S1 := updAt st.2.2 l.1 (fun v => v + sol * flow)
    (Z1, W2, S1)) st

/-- Body of the per-cell scan of `_hydro_core`. -/
def hydroCell (sol : ℚ) (st : HTriple) (c : ℕ × ℕ) : HTriple :=
  let lows := hydroLows st.1 st.2.1 c
  let total := (lows.map (fun l => l.2)).sum
  if total ≤ 0 then st else hydroDistribute sol c lows total st

/-- One iteration of `_hydro_core`: rain falls on every cell of the water
grid, then the interior cells are scanned in row-major order. -/
def hydroIterData (rain sol : ℚ) (n m : ℕ) (st : HTriple) : HTriple :=
  let st1 : HTriple := (st.1, fun i j => st.2.1 i j + rain, st.2.2)
  (interiorList n m).foldl (hydroCell sol) st1

/-- `_hydro_core`'s iteration loop, `k` passes. -/
def hydroCoreData (rain sol : ℚ) (n m : ℕ) : ℕ → HTriple → HTriple
  | 0, st => st
  | k + 1, st => hydroIterData rain sol n m (hydroCoreData rain sol n m k st)

/-- `hydraulic_erosion(Z, iterations, rain_amount, solubility)`: guarded
normalization, fresh zero water/sediment maps, the core, guarded
re-normalization of the returned height grid. -/
def hydraulicErosion (g : Grid) (iters : ℤ) (rain sol : ℚ) : Grid :=
  normalizeG ⟨(normalizeG g).rows, (normalizeG g).cols,
    (hydroCoreData rain sol (normalizeG g).rows (normalizeG g).cols iters.toNat
      ((normalizeG g).data, fun _ _ => 0, fun _ _ => 0)).1⟩

/-- `hydraulic_erosion` as a fallible call; as with thermal erosion the
source validates nothing and never raises. -/
def hydraulicErosionE (g : Grid) (iters : ℤ) (rain sol : ℚ) : Except TerraError Grid :=
  Except.ok (hydraulicErosion g iters rain sol)

/-! Voronoi cliffs (`voronoi_cliffs`). -/

/-- `np.random.uniform(0, scale, size=k)`: `k` consecutive draws stretched to
`[0, scale)`. -/
def randVec (mtf : ℕ → ℕ → ℚ) (scale k : ℕ) (s : RS) : List ℚ × RS :=
  ((List.range k).map (fun idx => (scale : ℚ) * mtf s.1 (s.2 + idx)), (s.1, s.2 + k))

/-- `voronoi_cliffs(Z, num_sites, ridge_height)`.  External collaborators are
parameters: `vorVertices` models `scipy.spatial.Voronoi(...).vertices`,
`nearestDist` the `cKDTree.query` distance to the nearest vertex and `expQ`
the real exponential `np.exp`.  `scipy.spatial.Voronoi` (qhull with the
default `Qz` option) raises `QhullError` whenever fewer than 3 input sites
are supplied in 2-D, which the source does not guard against; general
position of the random sites is assumed for 3 or more. -/
def voronoiCliffsE (mtf : ℕ → ℕ → ℚ) (vorVertices : List (ℚ × ℚ) → List (ℚ × ℚ))
    (nearestDist : List (ℚ × ℚ) → ℚ × ℚ → ℚ) (expQ : ℚ → ℚ)
    (g : Grid) (numSites : ℕ) (ridge : ℚ) (s : RS) :
    Except TerraError Grid × RS :=
  let xs := randVec mtf g.rows numSites s
  let ys := randVec mtf g.cols numSites xs.2
  let pts := xs.1.zip ys.1
  if numSites < 3 then (Except.error TerraError.qhullError, ys.2)
  else
    let verts := vorVertices pts
    let influence : ℕ → ℕ → ℚ := fun i j =>
      expQ (-(nearestDist verts ((i : ℚ), (j : ℚ))) ^ 2 /
        (2 * ((g.rows : ℚ) / (numSites : ℚ)) ^ 2))
    (Except.ok (normalizeG ⟨g.rows, g.cols, fun i j => g.data i j + ridge * influence i j⟩),
      ys.2)

/-! Spectral analysis (`radial_power_spectrum`). -/

/-- Integer radial distance of cell `(y, x)` from the centered zero frequency
`(ny//2, nx//2)`: `np.hypot(x-cx, y-cy).astype(int)` truncates the exact
square root. -/
def rOf (ny nx y x : ℕ) : ℕ :=
  Nat.sqrt ((((x : ℤ) - ((nx / 2 : ℕ) : ℤ)) ^ 2 + ((y : ℤ) - ((ny / 2 : ℕ) : ℤ)) ^ 2).toNat)

/-- Radius of flat (ravel) index `f` in row-major order. -/
def flatR (ny nx f : ℕ) : ℕ := rOf ny nx (f / nx) (f % nx)

/-- All radii over the ravel of an `ny × nx` grid. -/
def allR (ny nx : ℕ) : List ℕ := (List.range (ny * nx)).map (flatR ny nx)

/-- `np.unique(r)`: the distinct radii in ascending order. -/
def uniqueR (ny nx : ℕ) : List ℕ :=
  (List.range ((allR ny nx).foldl max 0 + 1)).filter (fun r => r ∈ allR ny nx)

/-- `np.where(r.ravel() == ri)[0]`: ascending flat indices at radius `ri`. -/
def binsFor (ny nx ri : ℕ) : List ℕ :=
  (List.range (ny * nx)).filter (fun f => flatR ny nx f = ri)

/-- The `tbin_idx` dictionary, as the sorted association list the
`sorted(tbin_idx.items())` loop consumes. -/
def radialBins (ny nx : ℕ) : List (ℕ × List ℕ) :=
  (uniqueR ny nx).map (fun ri => (ri, binsFor ny nx ri))

/-- `np.mean` of a list. -/
def meanQ (l : List ℚ) : ℚ := l.sum / (l.length : ℚ)

/-- The output loop of `radial_power_spectrum`: walk the sorted bins,
skip the DC radius 0, append the radius and the mean binned power. -/
def rpsFrom (bins : List (ℕ × List ℕ)) (P : ℕ → ℚ) : List ℕ × List ℚ :=
  bins.foldl (fun acc b =>
    if b.1 = 0 then acc else (acc.1 ++ [b.1], acc.2 ++ [meanQ (b.2.map P)])) ([], [])

/-- The module-level `_radial_cache` dictionary keyed by grid shape. -/
def SpectralCache : Type := ℕ × ℕ → Option (List (ℕ × List ℕ))

/-- The cache at interpreter start-up: empty. -/
def emptyCache : SpectralCache := fun _ => none

/-- `radial_power_spectrum(Z)` for an `ny × nx` grid.  `P` is the raveled
shifted power `np.abs(fftshift(fft2 Z))**2`, computed by scipy (external,
deterministic); the binning consumes the cached indices when the shape was
seen before, else computes and stores them. -/
def radialPowerSpectrum (c : SpectralCache) (ny nx : ℕ) (P : ℕ → ℚ) :
    (List ℕ × List ℚ) × SpectralCache :=
  match c (ny, nx) with
  | some bins => (rpsFrom bins P, c)
  | none =>
      (rpsFrom (radialBins ny nx) P,
        fun k => if k = (ny, nx) then some (radialBins ny nx) else c k)

/-! Biome classification (`assign_biomes`). -/

/-- `assign_biomes` restricted to one cell: the sequential masked
assignments of the source, applied in order to an initial 0 (water).
`fo` mirrors the accepted-but-unused `forest_thresh` parameter. -/
def assignBiomesCell (z sl w wt sa gr _fo ro : ℚ) : ℤ :=
  let b : ℤ := 0
  let b := if z ≤ wt then 0 else b
  let b := if wt < z ∧ z ≤ sa then 1 else b
  let lowland := sa < z ∧ z ≤ gr
  let grassM := lowland ∧ sl < 1/2 ∧ w < 3/5
  let b := if grassM then 2 else b
  let b := if lowland ∧ ¬grassM then 3 else b
  let b := if gr < z ∧ z ≤ ro then 3 else b
  let b := if ro < z then 4 else b
  b

/-- `assign_biomes(Z, slope, wetness, *thresholds)`: the numpy masks act
pointwise, so the biome grid is the cellwise classifier over the three
input grids. -/
def assignBiomes (Z S W : Grid) (wt sa gr fo ro : ℚ) : ℕ → ℕ → ℤ :=
  fun i j => assignBiomesCell (Z.data i j) (S.data i j) (W.data i j) wt sa gr fo ro

/-- The 1×5 elevation vector of the spec's classification test case. -/
def elevRow : Grid := ⟨1, 5, fun _ j => [(1:ℚ)/10, 1/4, 1/2, 17/20, 19/20].getD j 0⟩

/-- An all-zero grid of the same 1×5 shape (the zero slope and wetness
inputs of the test case). -/
def zeroRow : Grid := ⟨1, 5, fun _ _ => 0⟩

/-! FBM generator (`FBMGenerator`). -/

/-- `np.random.rand(sz, sz)`: `sz*sz` consecutive draws in C order. -/
def randGrid (mtf : ℕ → ℕ → ℚ) (sz : ℕ) (s : RS) : Grid × RS :=
  (⟨sz, sz, fun i j => mtf s.1 (s.2 + (i * sz + j))⟩, (s.1, s.2 + sz * sz))

/-- `FBMGenerator.__init__` after seeding: with the `noise` package present
no further state is touched; otherwise the fallback base noise is drawn and
smoothed (`gaussianFilter` models `scipy.ndimage.gaussian_filter`). -/
def fbmInit (mtf : ℕ → ℕ → ℚ) (hasPerlin : Bool) (gaussianFilter : Grid → ℚ → Grid)
    (size : ℕ) (s : RS) : Option Grid × RS :=
  if hasPerlin then (none, s)
  else
    let bg := randGrid mtf size s
    (some (gaussianFilter bg.1 ((size : ℚ) / 8)), bg.2)

/-- The per-pixel octave loop of `FBMGenerator.generate` (`pnoise2` models
`noise.pnoise2`). -/
def fbmVal (pnoise2 : ℚ → ℚ → ℚ) (oct : ℕ) (pers lac : ℚ) (x y : ℚ) : ℚ :=
  ((List.range oct).foldl (fun acc _ =>
    (acc.1 + acc.2.1 * pnoise2 (x * acc.2.2) (y * acc.2.2), acc.2.1 * pers, acc.2.2 * lac))
    ((0 : ℚ), (1 : ℚ), (1 : ℚ))).1

/-- `FBMGenerator.generate`: the Perlin path sums octaves per pixel; the
fallback path resamples the smoothed base noise (`resample` models the
`np.interp` resampling).  Both end in the unguarded normalization. -/
def fbmGenerate (pnoise2 : ℚ → ℚ → ℚ) (resample : Grid → ℕ → Grid)
    (size oct : ℕ) (pers lac scl : ℚ) (base : Option Grid) : Option Grid :=
  let hm : ℕ → ℕ → ℚ :=
    match base with
    | some b => (resample b size).data
    | none => fun i j => fbmVal pnoise2 oct pers lac ((i : ℚ) / scl) ((j : ℚ) / scl)
  normalizeUnguarded ⟨size, size, hm⟩

/-! The `generate_heightmap` entry point. -/

/-- Generation parameters forwarded to the chosen generator, with the
source's defaults. -/
structure GenParams where
  roughness : ℚ := 1
  octaves : ℕ := 6
  persistence : ℚ := 1/2
  lacunarity : ℚ := 2
  scale : ℚ := 50

/-- The post-processing keys popped from `params` (absent = not supplied). -/
structure PostParams where
  thermal_iters : Option ℤ := none
  talus_angle : Option ℚ := none
  hydro_iters : Option ℤ := none
  rain_amount : Option ℚ := none
  solubility : Option ℚ := none
  voronoi_sites : Option ℕ := none
  ridge_height : Option ℚ := none

/-- Python truthiness of `post.get(key)` for an integer value: present and
nonzero. -/
def truthyZ : Option ℤ → Bool
  | none => false
  | some k => decide (k ≠ 0)

/-- Python truthiness of `post.get(key)` for a count value. -/
def truthyN : Option ℕ → Bool
  | none => false
  | some k => decide (k ≠ 0)

/-- The optional post-processing chain at the end of `generate_heightmap`:
thermal, then hydraulic, then Voronoi cliffs, each only when its iteration
or site count is truthy.  A `none` (NaN) generator output stays NaN through
the chain. -/
def applyPost (mtf : ℕ → ℕ → ℚ) (vorVertices : List (ℚ × ℚ) → List (ℚ × ℚ))
    (nearestDist : List (ℚ × ℚ) → ℚ × ℚ → ℚ) (expQ : ℚ → ℚ)
    (pp : PostParams) (z : Option Grid) (s : RS) :
    Except TerraError (Option Grid) × RS :=
  let z := if truthyZ pp.thermal_iters then
      z.map (fun g => thermalErosion g (pp.thermal_iters.getD 0) (pp.talus_angle.getD (1/100)))
    else z
  let z := if truthyZ pp.hydro_iters then
      z.map (fun g => hydraulicErosion g (pp.hydro_iters.getD 0)
        (pp.rain_amount.getD (1/100)) (pp.solubility.getD (1/10)))
    else z
  if truthyN pp.voronoi_sites then
    match z with
    | none => (Except.ok none, s)
    | some g =>
        let r := voronoiCliffsE mtf vorVertices nearestDist expQ g
          (pp.voronoi_sites.getD 0) (pp.ridge_height.getD (1/2)) s
        (r.1.map some, r.2)
  else (Except.ok z, s)

/-- `generate_heightmap(algorithm, size, seed, **params)`: dispatch on the
lower-cased algorithm name, construct the generator (whose `__init__` seeds
the global RNG when a seed is given), generate, then post-process.  An
unknown algorithm raises `ValueError` before any generator is built. -/
def generateHeightmap (mtf : ℕ → ℕ → ℚ) (hasPerlin : Bool) (pnoise2 : ℚ → ℚ → ℚ)
    (gaussianFilter : Grid → ℚ → Grid) (resample : Grid → ℕ → Grid)
    (vorVertices : List (ℚ × ℚ) → List (ℚ × ℚ))
    (nearestDist : List (ℚ × ℚ) → ℚ × ℚ → ℚ) (expQ : ℚ → ℚ)
    (algo : String) (size : ℕ) (seed : Option ℕ) (gp : GenParams) (pp : PostParams)
    (s0 : RS) : Except TerraError (Option Grid) × RS :=
  let a := algo.toLower
  if a = "diamond-square" then
    let zr := dsGenerate mtf size gp.roughness (seedRS seed s0)
    applyPost mtf vorVertices nearestDist expQ pp zr.1 zr.2
  else if a = "fbm" ∨ a = "fractal-brownian-motion" then
    let br := fbmInit mtf hasPerlin gaussianFilter size (seedRS seed s0)
    applyPost mtf vorVertices nearestDist expQ pp
      (fbmGenerate pnoise2 resample size gp.octaves gp.persistence gp.lacunarity gp.scale br.1)
      br.2
  else (Except.error TerraError.valueError, s0)

/-! A reference-and-store model of the numpy arrays, for the frame
properties: which buffer each in-place operation writes to. -/

/-- A heap of numpy arrays: allocated references are `0, ..., next - 1`. -/
structure Store where
  next : ℕ
  mem : ℕ → Grid

/-- Allocate a fresh array (`np.copy`, `np.zeros_like`, an arithmetic
expression producing a new array, or the core's internal copy). -/
def Store.alloc (st : Store) (g : Grid) : ℕ × Store :=
  (st.next, ⟨st.next + 1, fun r => if r = st.next then g else st.mem r⟩)

/-- Overwrite an existing array in place (`A -= ...`, `A /= ...`). -/
def Store.write (st : Store) (r : ℕ) (g : Grid) : Store :=
  ⟨st.next, fun a => if a = r then g else st.mem a⟩

/-- `thermal_erosion` as a store program: `Zn = Z.copy().astype(float64)`
(fresh), two in-place normalization writes to `Zn`, the core's fresh output
array `Zt = Z_out`, two in-place writes to `Zt`, return `Zt`'s reference.
The caller's array `r` is only ever read. -/
def thermalProg (r : ℕ) (iters : ℤ) (t : ℚ) (st : Store) : ℕ × Store :=
  let a1 := st.alloc (st.mem r)
  let st2 := a1.2.write a1.1 (subMinG (a1.2.mem a1.1))
  let st3 := st2.write a1.1 (divMaxG (st2.mem a1.1))
  let a2 := st3.alloc (thermalCoreG t iters (st3.mem a1.1))
  let st4 := a2.2.write a2.1 (subMinG (a2.2.mem a2.1))
  let st5 := st4.write a2.1 (divMaxG (st4.mem a2.1))
  (a2.1, st5)

/-- `hydraulic_erosion` as a store program: fresh normalized copy, fresh
zero water and sediment maps, the core's fresh output array, two in-place
writes to it, return its reference. -/
def hydroProg (r : ℕ) (iters : ℤ) (rain sol : ℚ) (st : Store) : ℕ × Store :=
  let a1 := st.alloc (st.mem r)
  let st2 := a1.2.write a1.1 (subMinG (a1.2.mem a1.1))
  let st3 := st2.write a1.1 (divMaxG (st2.mem a1.1))
  let zn := st3.mem a1.1
  let aW := st3.alloc ⟨zn.rows, zn.cols, fun _ _ => 0⟩
  let aS := aW.2.alloc ⟨zn.rows, zn.cols, fun _ _ => 0⟩
  let a2 := aS.2.alloc ⟨zn.rows, zn.cols,
    (hydroCoreData rain sol zn.rows zn.cols iters.toNat
      (zn.data, (aS.2.mem aW.1).data, (aS.2.mem aS.1).data)).1⟩
  let st4 := a2.2.write a2.1 (subMinG (a2.2.mem a2.1))
  let st5 := st4.write a2.1 (divMaxG (st4.mem a2.1))
  (a2.1, st5)

/-- `voronoi_cliffs` as a store program: random sites, the qhull failure on
fewer than 3 sites (before any allocation), else the fresh array
`Z2 = Z + ridge_height * influence` with two in-place normalization writes.
The caller's array is only read. -/
def voronoiProg (mtf : ℕ → ℕ → ℚ) (vorVertices : List (ℚ × ℚ) → List (ℚ × ℚ))
    (nearestDist : List (ℚ × ℚ) → ℚ × ℚ → ℚ) (expQ : ℚ → ℚ)
    (r : ℕ) (numSites : ℕ) (ridge : ℚ) (st : Store) (s : RS) :
    Except TerraError ℕ × Store × RS :=
  let g := st.mem r
  let xs := randVec mtf g.rows numSites s
  let ys := randVec mtf g.cols numSites xs.2
  let pts := xs.1.zip ys.1
  if numSites < 3 then (Except.error TerraError.qhullError, st, ys.2)
  else
    let verts := vorVertices pts
    let influence : ℕ → ℕ → ℚ := fun i j =>
      expQ (-(nearestDist verts ((i : ℚ), (j : ℚ))) ^ 2 /
        (2 * ((g.rows : ℚ) / (numSites : ℚ)) ^ 2))
    let a1 := st.alloc ⟨g.rows, g.cols, fun i j => g.data i j + ridge * influence i j⟩
    let st2 := a1.2.write a1.1 (subMinG (a1.2.mem a1.1))
    let st3 := st2.write a1.1 (divMaxG (st2.mem a1.1))
    (Except.ok a1.1, st3, ys.2)

/-! Reference definitions for the thermal Jacobi-update claim. -/

/-- The interior cells of an `n × m` grid as a canonical finite set (the
order-free counterpart of the source's row-major scan). -/
def interiorFinset (n m : ℕ) : Finset (ℕ × ℕ) :=
  Finset.Ico 1 (n - 1) ×ˢ Finset.Ico 1 (m - 1)

/-- Net effect on the delta buffer at point `x` of processing source cell
`c` (used to relate the scan to the simultaneous reference). -/
def cellContrib (t : ℚ) (Z : ℕ → ℕ → ℚ) (c x : ℕ × ℕ) : ℚ :=
  ((nbrs c).map (fun nb =>
    (if x = nb then transferAmt t Z c nb else 0) -
    (if x = c then transferAmt t Z c nb else 0))).sum

/-- The simultaneous (Jacobi) reference update of one thermal-erosion
iteration, written directly from the spec: every cell's new height is its
snapshot height, plus the transfers it receives from adjacent interior
cells, minus (for interior cells) the transfers it sends to its four
neighbours — all amounts read from the iteration-start snapshot, summed
over an unordered set. -/
def jacobiRef (t : ℚ) (n m : ℕ) (Z : ℕ → ℕ → ℚ) (x : ℕ × ℕ) : ℚ :=
  Z x.1 x.2
    + (∑ c ∈ interiorFinset n m, if x ∈ nbrs c then transferAmt t Z c x else 0)
    - (if x ∈ interiorFinset n m then ((nbrs x).map (transferAmt t Z x)).sum else 0)

/-! Helper lemmas: list minima and maxima. -/

lemma foldl_min_le_init (l : List ℚ) : ∀ a : ℚ, l.foldl min a ≤ a := by
  induction l with
  | nil => intro a; simp
  | cons x l ih =>
      intro a
      calc (x :: l).foldl min a = l.foldl min (min a x) := by simp
        _ ≤ min a x := ih _
        _ ≤ a := min_le_left _ _

lemma foldl_min_le_mem (l : List ℚ) : ∀ a x : ℚ, x ∈ l → l.foldl min a ≤ x := by
  induction l with
  | nil => intro a x hx; simp at hx
  | cons y l ih =>
      intro a x hx
      rcases List.mem_cons.1 hx with h | h
      · subst h
        calc (x :: l).foldl min a = l.foldl min (min a x) := by simp
          _ ≤ min a x := foldl_min_le_init _ _
          _ ≤ x := min_le_right _ _
      · simpa using ih (min a y) x h

lemma foldl_min_mem (l : List ℚ) : ∀ a : ℚ, l.foldl min a = a ∨ l.foldl min a ∈ l := by
  induction l with
  | nil => intro a; left; rfl
  | cons y l ih =>
      intro a
      have h : (y :: l).foldl min a = l.foldl min (min a y) := by simp
      rcases ih (min a y) with h1 | h1
      · rcases min_choice a y with h2 | h2
        · left; rw [h, h1, h2]
        · right; rw [h, h1, h2]; exact List.mem_cons_self _ _
      · right; rw [h]; exact List.mem_cons_of_mem _ h1

lemma init_le_foldl_max (l : List ℚ) : ∀ a : ℚ, a ≤ l.foldl max a := by
  induction l with
  | nil => intro a; simp
  | cons x l ih =>
      intro a
      calc a ≤ max a x := le_max_left _ _
        _ ≤ l.foldl max (max a x) := ih _
        _ = (x :: l).foldl max a := by simp

lemma mem_le_foldl_max (l : List ℚ) : ∀ a x : ℚ, x ∈ l → x ≤ l.foldl max a := by
  induction l with
  | nil => intro a x hx; simp at hx
  | cons y l ih =>
      intro a x hx
      rcases List.mem_cons.1 hx with h | h
      · subst h
        calc x ≤ max a x := le_max_right _ _
          _ ≤ l.foldl max (max a x) := init_le_foldl_max _ _
          _ = (x :: l).foldl max a := by simp
      · simpa using ih (max a y) x h

lemma foldl_max_mem (l : List ℚ) : ∀ a : ℚ, l.foldl max a = a ∨ l.foldl max a ∈ l := by
  induction l with
  | nil => intro a; left; rfl
  | cons y l ih =>
      intro a
      have h : (y :: l).foldl max a = l.foldl max (max a y) := by simp
      rcases ih (max a y) with h1 | h1
      · rcases max_choice a y with h2 | h2
        · left; rw [h, h1, h2]
        · right; rw [h, h1, h2]; exact List.mem_cons_self _ _
      · right; rw [h]; exact List.mem_cons_of_mem _ h1

lemma listMin_le {l : List ℚ} {x : ℚ} (h : x ∈ l) : listMin l ≤ x := by
  cases l with
  | nil => simp at h
  | cons v l =>
      rcases List.mem_cons.1 h with h1 | h1
      · subst h1; exact foldl_min_le_init _ _
      · exact foldl_min_le_mem _ _ _ h1

lemma le_listMax {l : List ℚ} {x : ℚ} (h : x ∈ l) : x ≤ listMax l := by
  cases l with
  | nil => simp at h
  | cons v l =>
      rcases List.mem_cons.1 h with h1 | h1
      · subst h1; exact init_le_foldl_max _ _
      · exact mem_le_foldl_max _ _ _ h1

lemma listMin_mem {l : List ℚ} (h : l ≠ []) : listMin l ∈ l := by
  cases l with
  | nil => exact absurd rfl h
  | cons v l =>
      rcases foldl_min_mem l v with h1 | h1
      · rw [listMin]; rw [h1]; exact List.mem_cons_self _ _
      · rw [listMin]; exact List.mem_cons_of_mem _ h1

lemma listMax_mem {l : List ℚ} (h : l ≠ []) : listMax l ∈ l := by
  cases l with
  | nil => exact absurd rfl h
  | cons v l =>
      rcases foldl_max_mem l v with h1 | h1
      · rw [listMax]; rw [h1]; exact List.mem_cons_self _ _
      · rw [listMax]; exact List.mem_cons_of_mem _ h1

lemma listMin_eq_of {l : List ℚ} {a : ℚ} (h1 : a ∈ l) (h2 : ∀ x ∈ l, a ≤ x) :
    listMin l = a :=
  le_antisymm (listMin_le h1) (h2 _ (listMin_mem (List.ne_nil_of_mem h1)))

lemma listMax_eq_of {l : List ℚ} {a : ℚ} (h1 : a ∈ l) (h2 : ∀ x ∈ l, x ≤ a) :
    listMax l = a :=
  le_antisymm (h2 _ (listMax_mem (List.ne_nil_of_mem h1))) (le_listMax h1)

/-! Helper lemmas: grid values and normalization. -/

lemma mem_values_iff {g : Grid} {x : ℚ} :
    x ∈ g.values ↔ ∃ i, i < g.rows ∧ ∃ j, j < g.cols ∧ x = g.data i j := by
  simp only [Grid.values, List.mem_flatMap, List.mem_map, List.mem_range]
  constructor
  · rintro ⟨i, hi, j, hj, rfl⟩; exact ⟨i, hi, j, hj, rfl⟩
  · rintro ⟨i, hi, j, hj, rfl⟩; exact ⟨i, hi, j, hj, rfl⟩

lemma data_mem_values {g : Grid} {i j : ℕ} (hi : i < g.rows) (hj : j < g.cols) :
    g.data i j ∈ g.values :=
  mem_values_iff.2 ⟨i, hi, j, hj, rfl⟩

lemma values_map (g : Grid) (f : ℚ → ℚ) : (g.map f).values = g.values.map f := by
  simp only [Grid.values, Grid.map, List.map_flatMap, List.map_map]
  rfl

lemma minVal_le_data {g : Grid} {i j : ℕ} (hi : i < g.rows) (hj : j < g.cols) :
    g.minVal ≤ g.data i j :=
  listMin_le (data_mem_values hi hj)

lemma data_le_maxVal {g : Grid} {i j : ℕ} (hi : i < g.rows) (hj : j < g.cols) :
    g.data i j ≤ g.maxVal :=
  le_listMax (data_mem_values hi hj)

lemma subMinG_nonneg {g : Grid} {x : ℚ} (h : x ∈ (subMinG g).values) : 0 ≤ x := by
  rw [subMinG, values_map] at h
  rcases List.mem_map.1 h with ⟨v, hv, rfl⟩
  have := listMin_le hv
  simp only [Grid.minVal] at *
  linarith

lemma subMinG_le_max {g : Grid} {x : ℚ} (h : x ∈ (subMinG g).values) :
    x ≤ (subMinG g).maxVal :=
  le_listMax h

/-- Every in-bounds value of the guarded-normalized grid lies in `[0, 1]`. -/
lemma normalizeG_bounds {g : Grid} {x : ℚ} (h : x ∈ (normalizeG g).values) :
    0 ≤ x ∧ x ≤ 1 := by
  rw [normalizeG, divMaxG] at h
  by_cases hpos : 0 < (subMinG g).maxVal
  · rw [if_pos hpos, values_map] at h
    rcases List.mem_map.1 h with ⟨v, hv, rfl⟩
    have h0 : 0 ≤ v := subMinG_nonneg hv
    have h1 : v ≤ (subMinG g).maxVal := subMinG_le_max hv
    constructor
    · positivity
    · rw [div_le_one hpos]; exact h1
  · rw [if_neg hpos] at h
    have h0 : 0 ≤ x := subMinG_nonneg h
    have h1 : x ≤ (subMinG g).maxVal := subMinG_le_max h
    constructor
    · exact h0
    · push_neg at hpos; linarith

lemma normalizeG_rows (g : Grid) : (normalizeG g).rows = g.rows := by
  rw [normalizeG, divMaxG]; split <;> rfl

lemma normalizeG_cols (g : Grid) : (normalizeG g).cols = g.cols := by
  rw [normalizeG, divMaxG]; split <;> rfl

lemma zero_mem_subMinG {g : Grid} (h : g.values ≠ []) : (0:ℚ) ∈ (subMinG g).values := by
  rw [subMinG, values_map]
  exact List.mem_map.2 ⟨g.minVal, listMin_mem h, sub_self _⟩

lemma subMinG_values_ne_nil {g : Grid} (h : g.values ≠ []) : (subMinG g).values ≠ [] := by
  rw [subMinG, values_map]
  simpa using h

/-- A guarded-normalized nonempty grid has minimum exactly 0. -/
lemma normalizeG_min_zero {g : Grid} (h : g.values ≠ []) : (normalizeG g).minVal = 0 := by
  have h0 : (0:ℚ) ∈ (normalizeG g).values := by
    rw [normalizeG, divMaxG]
    by_cases hpos : 0 < (subMinG g).maxVal
    · rw [if_pos hpos, values_map]
      exact List.mem_map.2 ⟨0, zero_mem_subMinG h, zero_div _⟩
    · rw [if_neg hpos]; exact zero_mem_subMinG h
  exact listMin_eq_of h0 (fun x hx => (normalizeG_bounds hx).1)

/-- A guarded-normalized nonempty grid has maximum 1, unless it is the
all-zero degenerate field. -/
lemma normalizeG_max_cases {g : Grid} (h : g.values ≠ []) :
    (normalizeG g).maxVal = 1 ∨ ∀ x ∈ (normalizeG g).values, x = 0 := by
  by_cases hpos : 0 < (subMinG g).maxVal
  · left
    have h1 : (1:ℚ) ∈ (normalizeG g).values := by
      rw [normalizeG, divMaxG, if_pos hpos, values_map]
      exact List.mem_map.2
        ⟨(subMinG g).maxVal, listMax_mem (subMinG_values_ne_nil h), div_self (ne_of_gt hpos)⟩
    exact listMax_eq_of h1 (fun x hx => (normalizeG_bounds hx).2)
  · right
    intro x hx
    have hb := normalizeG_bounds hx
    rw [normalizeG, divMaxG, if_neg hpos] at hx
    have hle := subMinG_le_max hx
    push_neg at hpos
    linarith [hb.1]

/-- Re-normalizing a guarded-normalized grid changes nothing: the second
subtraction removes 0 and the second division divides by 1 (or is skipped
for the degenerate all-zero field). -/
lemma normalizeG_idem (g : Grid) : Grid.Equiv (normalizeG (normalizeG g)) (normalizeG g) := by
  refine ⟨by rw [normalizeG_rows, normalizeG_rows], by rw [normalizeG_cols, normalizeG_cols], ?_⟩
  intro i hi j hj
  rw [normalizeG_rows, normalizeG_rows] at hi
  rw [normalizeG_cols, normalizeG_cols] at hj
  have hne : g.values ≠ [] := List.ne_nil_of_mem (data_mem_values hi hj)
  have hi' : i < (normalizeG g).rows := by rw [normalizeG_rows]; exact hi
  have hj' : j < (normalizeG g).cols := by rw [normalizeG_cols]; exact hj
  have hmin := normalizeG_min_zero (g := g) hne
  have hsub : ∀ a b, (subMinG (normalizeG g)).data a b = (normalizeG g).data a b := by
    intro a b
    show (normalizeG g).data a b - (normalizeG g).minVal = (normalizeG g).data a b
    rw [hmin, sub_zero]
  have hsubval : (subMinG (normalizeG g)).values = (normalizeG g).values := by
    rw [subMinG, values_map, hmin]
    simp
  rcases normalizeG_max_cases (g := g) hne with hmax | hzero
  · have hmax' : (subMinG (normalizeG g)).maxVal = 1 := by
      rw [Grid.maxVal, hsubval, ← Grid.maxVal, hmax]
    show (divMaxG (subMinG (normalizeG g))).data i j = (normalizeG g).data i j
    rw [divMaxG, if_pos (by rw [hmax']; norm_num)]
    show (subMinG (normalizeG g)).data i j / (subMinG (normalizeG g)).maxVal
        = (normalizeG g).data i j
    rw [hmax', hsub, div_one]
  · have hmax0 : (subMinG (normalizeG g)).maxVal = 0 := by
      rw [Grid.maxVal, hsubval, ← Grid.maxVal]
      have h0 : (0:ℚ) ∈ (normalizeG g).values := by
        have := data_mem_values hi' hj'
        rwa [hzero _ this] at this
      exact listMax_eq_of h0 (fun x hx => le_of_eq (hzero _ hx))
    show (divMaxG (subMinG (normalizeG g))).data i j = (normalizeG g).data i j
    rw [divMaxG, if_neg (by rw [hmax0]; norm_num)]
    exact hsub i j

/-! Claim C5 and C6 support. -/

lemma thermalErosion_rows (g : Grid) (iters : ℤ) (t : ℚ) :
    (thermalErosion g iters t).rows = g.rows := by
  rw [thermalErosion, normalizeG_rows]
  show (normalizeG g).rows = g.rows
  exact normalizeG_rows g

lemma thermalErosion_cols (g : Grid) (iters : ℤ) (t : ℚ) :
    (thermalErosion g iters t).cols = g.cols := by
  rw [thermalErosion, normalizeG_cols]
  show (normalizeG g).cols = g.cols
  exact normalizeG_cols g

lemma hydraulicErosion_rows (g : Grid) (iters : ℤ) (rain sol : ℚ) :
    (hydraulicErosion g iters rain sol).rows = g.rows := by
  rw [hydraulicErosion, normalizeG_rows]
  exact normalizeG_rows g

lemma hydraulicErosion_cols (g : Grid) (iters : ℤ) (rain sol : ℚ) :
    (hydraulicErosion g iters rain sol).cols = g.cols := by
  rw [hydraulicErosion, normalizeG_cols]
  exact normalizeG_cols g

lemma thermalErosion_zero_iters (g : Grid) (t : ℚ) :
    Grid.Equiv (thermalErosion g 0 t) (normalizeG g) :=
  normalizeG_idem g

lemma hydraulicErosion_zero_iters (g : Grid) (rain sol : ℚ) :
    Grid.Equiv (hydraulicErosion g 0 rain sol) (normalizeG g) :=
  normalizeG_idem g

lemma thermalErosion_neg_iters (g : Grid) (iters : ℤ) (t : ℚ) (h : iters < 0) :
    Grid.Equiv (thermalErosion g iters t) (normalizeG g) := by
  have h0 : iters.toNat = 0 := Int.toNat_of_nonpos (le_of_lt h)
  unfold thermalErosion thermalCoreG
  rw [h0]
  exact normalizeG_idem g

lemma hydraulicErosion_neg_iters (g : Grid) (iters : ℤ) (rain sol : ℚ) (h : iters < 0) :
    Grid.Equiv (hydraulicErosion g iters rain sol) (normalizeG g) := by
  have h0 : iters.toNat = 0 := Int.toNat_of_nonpos (le_of_lt h)
  unfold hydraulicErosion
  rw [h0]
  exact normalizeG_idem g

/-- C5: for every input field and every non-negative iteration count, both
erosion simulators preserve the grid shape and return values inside `[0,1]`,
and zero iterations returns exactly the (guarded-)normalized copy of the
input. -/
theorem erosion_shape_norm_noop (g : Grid) (iters : ℤ) (t rain sol : ℚ)
    (h : 0 ≤ iters) :
    (thermalErosion g iters t).rows = g.rows ∧
    (thermalErosion g iters t).cols = g.cols ∧
    (∀ x ∈ (thermalErosion g iters t).values, 0 ≤ x ∧ x ≤ 1) ∧
    (iters = 0 → Grid.Equiv (thermalErosion g iters t) (normalizeG g)) ∧
    (hydraulicErosion g iters rain sol).rows = g.rows ∧
    (hydraulicErosion g iters rain sol).cols = g.cols ∧
    (∀ x ∈ (hydraulicErosion g iters rain sol).values, 0 ≤ x ∧ x ≤ 1) ∧
    (iters = 0 → Grid.Equiv (hydraulicErosion g iters rain sol) (normalizeG g)) := by
  refine ⟨thermalErosion_rows g iters t, thermalErosion_cols g iters t, ?_, ?_,
    hydraulicErosion_rows g iters rain sol, hydraulicErosion_cols g iters rain sol, ?_, ?_⟩
  · intro x hx
    exact normalizeG_bounds hx
  · rintro rfl
    exact thermalErosion_zero_iters g t
  · intro x hx
    exact normalizeG_bounds hx
  · rintro rfl
    exact hydraulicErosion_zero_iters g rain sol

/-- Witness for C5 at a concrete 1×2 grid and zero iterations. -/
theorem erosion_shape_norm_noop_witness :
    (0 : ℤ) ≤ 0 ∧
    ((thermalErosion (Grid.mk 1 2 fun _ j => j) 0 (1/100)).rows = 1 ∧
     (thermalErosion (Grid.mk 1 2 fun _ j => j) 0 (1/100)).cols = 2 ∧
     (∀ x ∈ (thermalErosion (Grid.mk 1 2 fun _ j => j) 0 (1/100)).values, 0 ≤ x ∧ x ≤ 1) ∧
     ((0 : ℤ) = 0 → Grid.Equiv (thermalErosion (Grid.mk 1 2 fun _ j => j) 0 (1/100))
        (normalizeG (Grid.mk 1 2 fun _ j => j))) ∧
     (hydraulicErosion (Grid.mk 1 2 fun _ j => j) 0 (1/100) (1/10)).rows = 1 ∧
     (hydraulicErosion (Grid.mk 1 2 fun _ j => j) 0 (1/100) (1/10)).cols = 2 ∧
     (∀ x ∈ (hydraulicErosion (Grid.mk 1 2 fun _ j => j) 0 (1/100) (1/10)).values,
        0 ≤ x ∧ x ≤ 1) ∧
     ((0 : ℤ) = 0 → Grid.Equiv (hydraulicErosion (Grid.mk 1 2 fun _ j => j) 0 (1/100) (1/10))
        (normalizeG (Grid.mk 1 2 fun _ j => j)))) :=
  ⟨le_refl 0, erosion_shape_norm_noop (Grid.mk 1 2 fun _ j => j) 0 (1/100) (1/100) (1/10)
    (le_refl 0)⟩

/-- C6 counterexample: called with the negative iteration count `-1` on a
concrete 1×1 grid, both erosion simulators return normally (`isOk`) with the
normalized copy of the input — no InvalidParameter rejection happens, and
grid computation (the normalizations) does run. -/
theorem erosion_negative_rejection_counterexample :
    (thermalErosionE (Grid.mk 1 1 fun _ _ => 0) (-1) (1/100)).isOk = true ∧
    (hydraulicErosionE (Grid.mk 1 1 fun _ _ => 0) (-1) (1/100) (1/10)).isOk = true ∧
    Grid.Equiv (thermalErosion (Grid.mk 1 1 fun _ _ => 0) (-1) (1/100))
      (normalizeG (Grid.mk 1 1 fun _ _ => 0)) :=
  ⟨rfl, rfl, normalizeG_idem _⟩

/-- C6 amended: a negative iteration count is not rejected; `range` of a
negative count simply runs zero passes, so both simulators return normally
with the normalized copy of the input. -/
theorem erosion_negative_iters_noop (g : Grid) (iters : ℤ) (t rain sol : ℚ)
    (h : iters < 0) :
    thermalErosionE g iters t = Except.ok (thermalErosion g iters t) ∧
    Grid.Equiv (thermalErosion g iters t) (normalizeG g) ∧
    hydraulicErosionE g iters rain sol = Except.ok (hydraulicErosion g iters rain sol) ∧
    Grid.Equiv (hydraulicErosion g iters rain sol) (normalizeG g) :=
  ⟨rfl, thermalErosion_neg_iters g iters t h, rfl,
    hydraulicErosion_neg_iters g iters rain sol h⟩

/-- Witness for the amended C6 at iteration count `-1`. -/
theorem erosion_negative_iters_noop_witness :
    (-1 : ℤ) < 0 ∧
    (thermalErosionE (Grid.mk 2 2 fun i j => i + j) (-1) (1/100) =
       Except.ok (thermalErosion (Grid.mk 2 2 fun i j => i + j) (-1) (1/100)) ∧
     Grid.Equiv (thermalErosion (Grid.mk 2 2 fun i j => i + j) (-1) (1/100))
       (normalizeG (Grid.mk 2 2 fun i j => i + j)) ∧
     hydraulicErosionE (Grid.mk 2 2 fun i j => i + j) (-1) (1/100) (1/10) =
       Except.ok (hydraulicErosion (Grid.mk 2 2 fun i j => i + j) (-1) (1/100) (1/10)) ∧
     Grid.Equiv (hydraulicErosion (Grid.mk 2 2 fun i j => i + j) (-1) (1/100) (1/10))
       (normalizeG (Grid.mk 2 2 fun i j => i + j))) :=
  ⟨by norm_num, erosion_negative_iters_noop (Grid.mk 2 2 fun i j => i + j) (-1)
    (1/100) (1/100) (1/10) (by norm_num)⟩

/-! Claim C2: the biome classification test vector. -/

/-- C2 counterexample: on the 1×5 elevation vector `[0.1, 0.25, 0.5, 0.85,
0.95]` with zero slope and wetness and the default thresholds, `assign_biomes`
does not produce the claimed `[water, sand, grass, rock, rock]`
(`[0, 1, 2, 4, 4]`): elevation `0.85` falls in the `grass_thresh < Z ≤
rock_thresh` band, which the source assigns to forest (3), not rock (4). -/
theorem assign_biomes_claim_counterexample :
    (List.range 5).map
        (fun j => assignBiomes elevRow zeroRow zeroRow (1/5) (3/10) (3/5) (4/5) (9/10) 0 j)
      ≠ [0, 1, 2, 4, 4] := by
  have h : (List.range 5).map
      (fun j => assignBiomes elevRow zeroRow zeroRow (1/5) (3/10) (3/5) (4/5) (9/10) 0 j)
      = [0, 1, 2, 3, 4] := by
    simp only [List.range_succ, List.range_zero]
    norm_num [assignBiomes, assignBiomesCell, elevRow, zeroRow, List.getD]
  rw [h]
  decide

/-- C2 amended: the categories produced are `[water, sand, grass, forest,
rock]` = `[0, 1, 2, 3, 4]`, matching the source's own test. -/
theorem assign_biomes_sequence :
    (List.range 5).map
        (fun j => assignBiomes elevRow zeroRow zeroRow (1/5) (3/10) (3/5) (4/5) (9/10) 0 j)
      = [0, 1, 2, 3, 4] := by
  simp only [List.range_succ, List.range_zero]
  norm_num [assignBiomes, assignBiomesCell, elevRow, zeroRow, List.getD]

/-! Claim C3 support: the power-of-two test `(n-1) & (n-2)` and the rounding. -/

lemma testBit_of_between {x k : ℕ} (h1 : 2 ^ k ≤ x) (h2 : x < 2 ^ (k + 1)) :
    x.testBit k = true := by
  have hdiv : x / 2 ^ k = 1 := by
    apply Nat.div_eq_of_lt_le
    · simpa using h1
    · calc x < 2 ^ (k + 1) := h2
        _ = (1 + 1) * 2 ^ k := by ring
  rw [Nat.testBit_to_div_mod, hdiv]
  decide

/-- `m & (m-1) == 0` characterizes the powers of two among the positive
naturals: this is the test `_next_pow2_plus1` avoidance guard relies on. -/
lemma land_pred_eq_zero_iff {m : ℕ} (h : 1 ≤ m) :
    m &&& (m - 1) = 0 ↔ ∃ k, m = 2 ^ k := by
  constructor
  · intro h0
    refine ⟨Nat.log 2 m, ?_⟩
    by_contra hne
    have hm0 : m ≠ 0 := by omega
    have hlo : 2 ^ Nat.log 2 m ≤ m := Nat.pow_log_le_self 2 hm0
    have hhi : m < 2 ^ (Nat.log 2 m + 1) := Nat.lt_pow_succ_log_self (by norm_num) m
    have hlt : 2 ^ Nat.log 2 m < m := lt_of_le_of_ne hlo (fun hh => hne hh.symm)
    have hb1 : m.testBit (Nat.log 2 m) = true := testBit_of_between hlo hhi
    have hb2 : (m - 1).testBit (Nat.log 2 m) = true :=
      testBit_of_between (by omega) (by omega)
    have : (m &&& (m - 1)).testBit (Nat.log 2 m) = true := by
      rw [Nat.testBit_and, hb1, hb2]; rfl
    rw [h0, Nat.zero_testBit] at this
    exact Bool.false_ne_true this
  · rintro ⟨k, rfl⟩
    apply Nat.eq_of_testBit_eq
    intro i
    rw [Nat.testBit_and, Nat.zero_testBit, Nat.testBit_two_pow_sub_one]
    rcases eq_or_ne k i with rfl | hne
    · simp
    · rw [Nat.testBit_two_pow_of_ne hne]
      rfl

/-- C3: for every requested size of at least 3 the diamond-square size
adjustment returns a side of the form `2^k + 1`, at least the request, and
the least such valid size; the resize warning fires exactly when the size
changed; requesting 200 yields 257; and any grid the generator returns has
exactly that side length (for every RNG stream, roughness and RNG state). -/
theorem ds_size_pow2_plus1 (size : ℕ) (h : 3 ≤ size) :
    (∃ k, (dsSize size).1 = 2 ^ k + 1) ∧
    size ≤ (dsSize size).1 ∧
    (∀ j, size ≤ 2 ^ j + 1 → (dsSize size).1 ≤ 2 ^ j + 1) ∧
    ((dsSize size).2 = true ↔ (dsSize size).1 ≠ size) ∧
    (dsSize 200).1 = 257 ∧
    (∀ (mtf : ℕ → ℕ → ℚ) (r : ℚ) (s : RS) (g : Grid),
      (dsGenerate mtf size r s).1 = some g →
        g.rows = (dsSize size).1 ∧ g.cols = (dsSize size).1) := by
  have h200 : (dsSize 200).1 = 257 := by
    have hg : (200 - 1) &&& (200 - 2) ≠ 0 := by decide
    rw [dsSize, if_pos hg, next_pow2_plus1]
    norm_num [Nat.clog]
  have hshape : ∀ (mtf : ℕ → ℕ → ℚ) (r : ℚ) (s : RS) (g : Grid),
      (dsGenerate mtf size r s).1 = some g →
        g.rows = (dsSize size).1 ∧ g.cols = (dsSize size).1 := by
    intro mtf r s g hg
    rw [dsGenerate, normalizeUnguarded] at hg
    simp only at hg
    split at hg
    · exact absurd hg (by simp)
    · have := Option.some.inj hg
      subst this
      constructor <;> rfl
  by_cases hguard : (size - 1) &&& (size - 2) ≠ 0
  · have hds : dsSize size = (next_pow2_plus1 size, true) := by rw [dsSize, if_pos hguard]
    have hnp : ¬ ∃ k, size - 1 = 2 ^ k := by
      intro hk
      exact hguard ((land_pred_eq_zero_iff (by omega)).2 hk)
    have hle : size - 1 ≤ 2 ^ Nat.clog 2 (size - 1) := Nat.le_pow_clog (by norm_num) _
    have hne : size - 1 ≠ 2 ^ Nat.clog 2 (size - 1) := fun hh => hnp ⟨_, hh⟩
    refine ⟨⟨Nat.clog 2 (size - 1), by rw [hds]; rfl⟩, ?_, ?_, ?_, h200, hshape⟩
    · rw [hds]
      show size ≤ 2 ^ Nat.clog 2 (size - 1) + 1
      omega
    · intro j hj
      rw [hds]
      show 2 ^ Nat.clog 2 (size - 1) + 1 ≤ 2 ^ j + 1
      have : size - 1 ≤ 2 ^ j := by omega
      have := (Nat.le_pow_iff_clog_le (by norm_num)).1 this
      exact Nat.add_le_add_right (Nat.pow_le_pow_right (by norm_num) this) 1
    · rw [hds]
      simp only [true_iff]
      show 2 ^ Nat.clog 2 (size - 1) + 1 ≠ size
      omega
  · push_neg at hguard
    have hds : dsSize size = (size, false) := by
      rw [dsSize, if_neg (by simpa using hguard)]
    have hpow : ∃ k, size - 1 = 2 ^ k :=
      (land_pred_eq_zero_iff (m := size - 1) (by omega)).1 hguard
    rcases hpow with ⟨k, hk⟩
    refine ⟨⟨k, by rw [hds]; show size = 2 ^ k + 1; omega⟩, by rw [hds], ?_, ?_, h200, hshape⟩
    · intro j _
      rw [hds]
      omega
    · rw [hds]
      simp

/-- Witness for C3 at the spec's example size 200 (rounded up to 257). -/
theorem ds_size_pow2_plus1_witness :
    3 ≤ 200 ∧
    ((∃ k, (dsSize 200).1 = 2 ^ k + 1) ∧
     200 ≤ (dsSize 200).1 ∧
     (∀ j, 200 ≤ 2 ^ j + 1 → (dsSize 200).1 ≤ 2 ^ j + 1) ∧
     ((dsSize 200).2 = true ↔ (dsSize 200).1 ≠ 200) ∧
     (dsSize 200).1 = 257 ∧
     (∀ (mtf : ℕ → ℕ → ℚ) (r : ℚ) (s : RS) (g : Grid),
       (dsGenerate mtf 200 r s).1 = some g →
         g.rows = (dsSize 200).1 ∧ g.cols = (dsSize 200).1)) :=
  ⟨by norm_num, ds_size_pow2_plus1 200 (by norm_num)⟩

/-! Claim C1: the generators' normalization is unguarded. -/

/-- C1 (code bug): on the RNG stream that returns 0.5 for every draw — a
value `np.random.rand` can produce — the diamond-square generator builds the
constant pre-normalization field 0.5 on a 3×3 grid, and its final
`grid -= grid.min(); grid /= grid.max()` divides by zero: the result is the
all-NaN field (`none`), not the all-zero field required by the claim and by
the generator's own contract of returning values in `[0,1]`.  The erosion
simulators guard this same division; the generators do not. -/
theorem ds_degenerate_normalization_nan :
    (dsGenerate (fun _ _ => (1:ℚ)/2) 3 1 ((0 : ℕ), (0 : ℕ))).1 = none := by
  have h3 : dsSize 3 = (3, false) := by
    rw [dsSize, if_neg]
    decide
  have hlog : Nat.log2 (3 - 1) = 1 := by simp [Nat.log2]
  simp only [dsGenerate, h3, hlog]
  norm_num [dsRounds, diamondStep, squareStep, pyRange, upd, rand, List.range_succ,
    normalizeUnguarded, subMinG, Grid.map, Grid.values, Grid.minVal, Grid.maxVal,
    listMin, listMax]

/-! Claim C7: no degenerate-site guard in `voronoi_cliffs`. -/

/-- C7 counterexample: with a single site (and any externals — here trivial
ones) `voronoi_cliffs` does not return the field: the qhull Voronoi
construction fails on fewer than 3 sites and the call errors out. -/
theorem voronoi_one_site_counterexample :
    (voronoiCliffsE (fun _ _ => 0) (fun _ => []) (fun _ _ => 0) (fun _ => 0)
        (Grid.mk 1 1 fun _ _ => 0) 1 (1/2) ((0 : ℕ), (0 : ℕ))).1
      = Except.error TerraError.qhullError := rfl

/-- C7 amended: `voronoi_cliffs` has no guard for few sites; for every site
count of at most 2 (in particular 0 and 1) the scipy Voronoi construction
raises and the call returns the qhull error instead of the (renormalized)
field. -/
theorem voronoi_few_sites_error (mtf : ℕ → ℕ → ℚ)
    (vorVertices : List (ℚ × ℚ) → List (ℚ × ℚ))
    (nearestDist : List (ℚ × ℚ) → ℚ × ℚ → ℚ) (expQ : ℚ → ℚ)
    (g : Grid) (numSites : ℕ) (ridge : ℚ) (s : RS) (h : numSites ≤ 2) :
    (voronoiCliffsE mtf vorVertices nearestDist expQ g numSites ridge s).1
      = Except.error TerraError.qhullError := by
  simp only [voronoiCliffsE]
  rw [if_pos (by omega : numSites < 3)]

/-- Witness for the amended C7 at one site. -/
theorem voronoi_few_sites_error_witness :
    1 ≤ 2 ∧
    (voronoiCliffsE (fun _ _ => 1/3) (fun l => l) (fun _ _ => 1) (fun q => q)
        (Grid.mk 2 2 fun i j => i * j) 1 (1/2) ((5 : ℕ), (7 : ℕ))).1
      = Except.error TerraError.qhullError :=
  ⟨by norm_num, voronoi_few_sites_error (fun _ _ => 1/3) (fun l => l) (fun _ _ => 1)
    (fun q => q) (Grid.mk 2 2 fun i j => i * j) 1 (1/2) ((5 : ℕ), (7 : ℕ)) (by norm_num)⟩

/-! Claim C8 support: the binned-spectrum output loop. -/

lemma rps_foldl_spec (P : ℕ → ℚ) :
    ∀ (bins : List (ℕ × List ℕ)) (acc : List ℕ × List ℚ),
      ((bins.foldl (fun acc b =>
            if b.1 = 0 then acc else (acc.1 ++ [b.1], acc.2 ++ [meanQ (b.2.map P)])) acc).1.length
          + acc.2.length
        = (bins.foldl (fun acc b =>
            if b.1 = 0 then acc else (acc.1 ++ [b.1], acc.2 ++ [meanQ (b.2.map P)])) acc).2.length
          + acc.1.length)
      ∧ ∀ x ∈ (bins.foldl (fun acc b =>
            if b.1 = 0 then acc else (acc.1 ++ [b.1], acc.2 ++ [meanQ (b.2.map P)])) acc).1,
          x ∈ acc.1 ∨ x ≠ 0 := by
  intro bins
  induction bins with
  | nil =>
      intro acc
      simp only [List.foldl_nil]
      exact ⟨by omega, fun x hx => Or.inl hx⟩
  | cons b bins ih =>
      intro acc
      simp only [List.foldl_cons]
      by_cases hb : b.1 = 0
      · rw [if_pos hb]
        exact ih acc
      · rw [if_neg hb]
        rcases ih (acc.1 ++ [b.1], acc.2 ++ [meanQ (b.2.map P)]) with ⟨hlen, hmem⟩
        constructor
        · simp only [List.length_append, List.length_cons, List.length_nil] at hlen ⊢
          omega
        · intro x hx
          rcases hmem x hx with hx1 | hx1
          · rcases List.mem_append.1 hx1 with hx2 | hx2
            · exact Or.inl hx2
            · right
              simp only [List.mem_singleton] at hx2
              subst hx2
              exact hb
          · exact Or.inr hx1

/-- C8: `radial_power_spectrum` always returns frequency and power sequences
of equal length with the zero-frequency bin excluded (for every cache state,
so on both the fresh and the cached path); the cache entry stored by a first
invocation is exactly the freshly computed bin table, and a re-invocation on
any same-shape grid through that cache returns the same value a fresh
computation would. -/
theorem radial_power_spectrum_spec (ny nx : ℕ) (P P2 : ℕ → ℚ) (c : SpectralCache) :
    (radialPowerSpectrum c ny nx P).1.1.length = (radialPowerSpectrum c ny nx P).1.2.length ∧
    (0 ∉ (radialPowerSpectrum c ny nx P).1.1) ∧
    (radialPowerSpectrum emptyCache ny nx P).2 (ny, nx) = some (radialBins ny nx) ∧
    (radialPowerSpectrum (radialPowerSpectrum emptyCache ny nx P).2 ny nx P2).1
      = (radialPowerSpectrum emptyCache ny nx P2).1 := by
  have hbins : ∀ bins : List (ℕ × List ℕ),
      (rpsFrom bins P).1.length = (rpsFrom bins P).2.length ∧ 0 ∉ (rpsFrom bins P).1 := by
    intro bins
    rcases rps_foldl_spec P bins ([], []) with ⟨hlen, hmem⟩
    refine ⟨by simpa using hlen, fun hx => ?_⟩
    rcases hmem 0 hx with h | h
    · simp at h
    · exact h rfl
  have hcall : ∀ (c' : SpectralCache),
      (radialPowerSpectrum c' ny nx P).1.1.length
        = (radialPowerSpectrum c' ny nx P).1.2.length ∧
      0 ∉ (radialPowerSpectrum c' ny nx P).1.1 := by
    intro c'
    rw [radialPowerSpectrum]
    rcases hc : c' (ny, nx) with _ | bins
    · exact hbins _
    · exact hbins bins
  refine ⟨(hcall c).1, (hcall c).2, ?_, ?_⟩
  · show (radialPowerSpectrum emptyCache ny nx P).2 (ny, nx) = some (radialBins ny nx)
    rw [radialPowerSpectrum]
    show (if ((ny, nx) : ℕ × ℕ) = (ny, nx) then some (radialBins ny nx)
        else emptyCache (ny, nx)) = some (radialBins ny nx)
    rw [if_pos rfl]
  · simp [radialPowerSpectrum, emptyCache]

/-! Claim C9: determinism of `generate_heightmap` under a fixed seed. -/

/-- C9: with a concrete seed, `generate_heightmap` is a deterministic
function of the seed and its parameters: whatever the prior state of the
global RNG (`s1` versus `s2`), the generator construction reseeds it, so two
calls with the same algorithm, size, seed, generation and post-processing
parameters return bit-identical results.  Quantified over every
Mersenne-Twister stream and every choice of the deterministic external
library routines. -/
theorem generate_heightmap_deterministic (mtf : ℕ → ℕ → ℚ) (hasPerlin : Bool)
    (pnoise2 : ℚ → ℚ → ℚ) (gaussianFilter : Grid → ℚ → Grid) (resample : Grid → ℕ → Grid)
    (vorVertices : List (ℚ × ℚ) → List (ℚ × ℚ)) (nearestDist : List (ℚ × ℚ) → ℚ × ℚ → ℚ)
    (expQ : ℚ → ℚ) (algo : String) (size : ℕ) (sd : ℕ) (gp : GenParams) (pp : PostParams)
    (s1 s2 : RS) :
    (generateHeightmap mtf hasPerlin pnoise2 gaussianFilter resample vorVertices
        nearestDist expQ algo size (some sd) gp pp s1).1
      = (generateHeightmap mtf hasPerlin pnoise2 gaussianFilter resample vorVertices
        nearestDist expQ algo size (some sd) gp pp s2).1 := by
  unfold generateHeightmap
  dsimp only [seedRS]
  split
  · rfl
  · split <;> rfl

/-! Claim C10: the post-processing stages never touch the caller's array. -/

/-- C10: run as store programs, `thermal_erosion`, `hydraulic_erosion` and
`voronoi_cliffs` leave the caller's array `r` bit-identical, return a
reference distinct from `r` (a fresh allocation), and the fresh array holds
exactly the value the pure functions compute (for Voronoi, whenever the call
returns at all). -/
theorem post_processing_frame (st : Store) (r : ℕ) (iters : ℤ) (t rain sol ridge : ℚ)
    (numSites : ℕ) (mtf : ℕ → ℕ → ℚ) (vorVertices : List (ℚ × ℚ) → List (ℚ × ℚ))
    (nearestDist : List (ℚ × ℚ) → ℚ × ℚ → ℚ) (expQ : ℚ → ℚ) (s : RS)
    (hr : r < st.next) :
    ((thermalProg r iters t st).2.mem r = st.mem r ∧
     (thermalProg r iters t st).1 ≠ r ∧
     (thermalProg r iters t st).2.mem (thermalProg r iters t st).1
       = thermalErosion (st.mem r) iters t) ∧
    ((hydroProg r iters rain sol st).2.mem r = st.mem r ∧
     (hydroProg r iters rain sol st).1 ≠ r ∧
     (hydroProg r iters rain sol st).2.mem (hydroProg r iters rain sol st).1
       = hydraulicErosion (st.mem r) iters rain sol) ∧
    ((voronoiProg mtf vorVertices nearestDist expQ r numSites ridge st s).2.1.mem r
       = st.mem r ∧
     ∀ r', (voronoiProg mtf vorVertices nearestDist expQ r numSites ridge st s).1
         = Except.ok r' → r' ≠ r) := by
  have h0 : r ≠ st.next := by omega
  have h1 : r ≠ st.next + 1 := by omega
  have h2 : r ≠ st.next + 2 := by omega
  have h3 : r ≠ st.next + 3 := by omega
  have e1 : st.next + 1 ≠ st.next := by omega
  have e3 : st.next + 3 ≠ st.next + 2 := by omega
  have e4 : st.next + 3 ≠ st.next + 1 := by omega
  have e5 : st.next + 3 ≠ st.next := by omega
  refine ⟨⟨?_, ?_, ?_⟩, ⟨?_, ?_, ?_⟩, ⟨?_, ?_⟩⟩
  · simp [thermalProg, Store.alloc, Store.write, h0, h1]
  · simp only [thermalProg, Store.alloc, Store.write]
    omega
  · simp [thermalProg, Store.alloc, Store.write, e1, thermalErosion, normalizeG]
  · simp [hydroProg, Store.alloc, Store.write, h0, h1, h2, h3]
  · simp only [hydroProg, Store.alloc, Store.write]
    omega
  · simp [hydroProg, Store.alloc, Store.write, e1, e3, e4, e5, hydraulicErosion, normalizeG]
  · rw [voronoiProg]
    split
    · simp
    · simp [Store.alloc, Store.write, h0]
  · intro r' hr'
    rw [voronoiProg] at hr'
    split at hr'
    · exact absurd hr' (by simp)
    · simp only [Store.alloc, Except.ok.injEq] at hr'
      omega

/-- Witness for C10 on a one-array store. -/
theorem post_processing_frame_witness :
    (0 : ℕ) < (Store.mk 1 fun _ => Grid.mk 1 1 fun _ _ => 0).next ∧
    (((thermalProg 0 0 (1/100) (Store.mk 1 fun _ => Grid.mk 1 1 fun _ _ => 0)).2.mem 0
        = (Store.mk 1 fun _ => Grid.mk 1 1 fun _ _ => 0).mem 0 ∧
      (thermalProg 0 0 (1/100) (Store.mk 1 fun _ => Grid.mk 1 1 fun _ _ => 0)).1 ≠ 0 ∧
      (thermalProg 0 0 (1/100) (Store.mk 1 fun _ => Grid.mk 1 1 fun _ _ => 0)).2.mem
          (thermalProg 0 0 (1/100) (Store.mk 1 fun _ => Grid.mk 1 1 fun _ _ => 0)).1
        = thermalErosion ((Store.mk 1 fun _ => Grid.mk 1 1 fun _ _ => 0).mem 0) 0 (1/100)) ∧
     ((hydroProg 0 0 (1/100) (1/10) (Store.mk 1 fun _ => Grid.mk 1 1 fun _ _ => 0)).2.mem 0
        = (Store.mk 1 fun _ => Grid.mk 1 1 fun _ _ => 0).mem 0 ∧
      (hydroProg 0 0 (1/100) (1/10) (Store.mk 1 fun _ => Grid.mk 1 1 fun _ _ => 0)).1 ≠ 0 ∧
      (hydroProg 0 0 (1/100) (1/10) (Store.mk 1 fun _ => Grid.mk 1 1 fun _ _ => 0)).2.mem
          (hydroProg 0 0 (1/100) (1/10) (Store.mk 1 fun _ => Grid.mk 1 1 fun _ _ => 0)).1
        = hydraulicErosion ((Store.mk 1 fun _ => Grid.mk 1 1 fun _ _ => 0).mem 0) 0
            (1/100) (1/10)) ∧
     ((voronoiProg (fun _ _ => 0) (fun _ => []) (fun _ _ => 0) (fun _ => 0) 0 3 (1/2)
          (Store.mk 1 fun _ => Grid.mk 1 1 fun _ _ => 0) ((0 : ℕ), (0 : ℕ))).2.1.mem 0
        = (Store.mk 1 fun _ => Grid.mk 1 1 fun _ _ => 0).mem 0 ∧
      ∀ r', (voronoiProg (fun _ _ => 0) (fun _ => []) (fun _ _ => 0) (fun _ => 0) 0 3 (1/2)
          (Store.mk 1 fun _ => Grid.mk 1 1 fun _ _ => 0) ((0 : ℕ), (0 : ℕ))).1
          = Except.ok r' → r' ≠ 0)) :=
  ⟨by norm_num,
    post_processing_frame (Store.mk 1 fun _ => Grid.mk 1 1 fun _ _ => 0) 0 0 (1/100)
      (1/100) (1/10) (1/2) 3 (fun _ _ => 0) (fun _ => []) (fun _ _ => 0) (fun _ => 0)
      ((0 : ℕ), (0 : ℕ)) (by norm_num)⟩

/-! Claim C4 support: the delta-buffer scan equals the simultaneous update. -/

lemma cellTransfer_go (t : ℚ) (Z : ℕ → ℕ → ℚ) (c : ℕ × ℕ) :
    ∀ (l : List (ℕ × ℕ)) (d : ℕ → ℕ → ℚ) (a b : ℕ),
      (l.foldl (fun d nb =>
        if t < Z c.1 c.2 - Z nb.1 nb.2 then
          updAt (updAt d c (fun v => v - (1/2) * (Z c.1 c.2 - Z nb.1 nb.2 - t))) nb
            (fun v => v + (1/2) * (Z c.1 c.2 - Z nb.1 nb.2 - t))
        else d) d) a b
      = d a b + (l.map (fun nb =>
          (if (a, b) = nb then transferAmt t Z c nb else 0) -
          (if (a, b) = c then transferAmt t Z c nb else 0))).sum := by
  intro l
  induction l with
  | nil => intro d a b; simp
  | cons nb l ih =>
      intro d a b
      rw [List.foldl_cons, List.map_cons, List.sum_cons, ih]
      have hstep : (if t < Z c.1 c.2 - Z nb.1 nb.2 then
          updAt (updAt d c (fun v => v - (1/2) * (Z c.1 c.2 - Z nb.1 nb.2 - t))) nb
            (fun v => v + (1/2) * (Z c.1 c.2 - Z nb.1 nb.2 - t))
          else d) a b
          = d a b + ((if (a, b) = nb then transferAmt t Z c nb else 0) -
            (if (a, b) = c then transferAmt t Z c nb else 0)) := by
        by_cases hc : t < Z c.1 c.2 - Z nb.1 nb.2
        · rw [if_pos hc, transferAmt, if_pos hc]
          by_cases h1 : ((a : ℕ), (b : ℕ)) = nb <;> by_cases h2 : ((a : ℕ), (b : ℕ)) = c
          · have hnc : nb = c := h1.symm.trans h2
            simp [updAt, h1, h2, hnc]
            try ring
          · have hnc : nb ≠ c := fun hh => h2 (h1.trans hh)
            simp [updAt, h1, h2, hnc]
            try ring
          · have hnc : c ≠ nb := fun hh => h1 (h2.trans hh)
            simp [updAt, h1, h2, hnc]
            try ring
          · simp [updAt, h1, h2]
        · rw [if_neg hc, transferAmt, if_neg hc]
          simp
      rw [hstep]
      ring

lemma cellTransfer_apply (t : ℚ) (Z : ℕ → ℕ → ℚ) (d : ℕ → ℕ → ℚ) (c : ℕ × ℕ) (a b : ℕ) :
    cellTransfer t Z d c a b = d a b + cellContrib t Z c (a, b) := by
  rw [cellTransfer, cellContrib]
  exact cellTransfer_go t Z c (nbrs c) d a b

lemma foldl_cellTransfer (t : ℚ) (Z : ℕ → ℕ → ℚ) :
    ∀ (L : List (ℕ × ℕ)) (d : ℕ → ℕ → ℚ) (a b : ℕ),
      (L.foldl (cellTransfer t Z) d) a b
        = d a b + (L.map (fun c => cellContrib t Z c (a, b))).sum := by
  intro L
  induction L with
  | nil => intro d a b; simp
  | cons c L ih =>
      intro d a b
      rw [List.foldl_cons, List.map_cons, List.sum_cons, ih, cellTransfer_apply]
      ring

/-- The delta buffer at a point is the sum of the per-cell contributions of
the scanned cells — hence independent of the scan order. -/
lemma thermalDelta_eq_sum (t : ℚ) (Z : ℕ → ℕ → ℚ) (L : List (ℕ × ℕ)) (a b : ℕ) :
    thermalDelta t Z L a b = (L.map (fun c => cellContrib t Z c (a, b))).sum := by
  rw [thermalDelta, foldl_cellTransfer]
  simp

lemma mem_pyRange_one {k x : ℕ} : x ∈ pyRange 1 k 1 ↔ 1 ≤ x ∧ x < k := by
  simp only [pyRange, List.mem_map, List.mem_range]
  constructor
  · rintro ⟨i, hi, rfl⟩
    omega
  · rintro ⟨h1, h2⟩
    exact ⟨x - 1, by omega, by omega⟩

lemma mem_interiorList {n m : ℕ} {c : ℕ × ℕ} :
    c ∈ interiorList n m ↔ 1 ≤ c.1 ∧ c.1 < n - 1 ∧ 1 ≤ c.2 ∧ c.2 < m - 1 := by
  rcases c with ⟨i, j⟩
  simp only [interiorList, List.mem_flatMap, List.mem_map, Prod.mk.injEq]
  constructor
  · rintro ⟨a, ha, b, hb, rfl, rfl⟩
    have h1 := mem_pyRange_one.1 ha
    have h2 := mem_pyRange_one.1 hb
    exact ⟨h1.1, h1.2, h2.1, h2.2⟩
  · rintro ⟨h1, h2, h3, h4⟩
    exact ⟨i, mem_pyRange_one.2 ⟨h1, h2⟩, j, mem_pyRange_one.2 ⟨h3, h4⟩, rfl, rfl⟩

lemma pyRange_one_nodup (k : ℕ) : (pyRange 1 k 1).Nodup := by
  rw [pyRange]
  exact (List.nodup_range _).map (fun a b hab => by omega)

lemma interiorList_nodup (n m : ℕ) : (interiorList n m).Nodup := by
  rw [interiorList, List.nodup_flatMap]
  constructor
  · intro i _
    exact (pyRange_one_nodup _).map (fun a b hab => by
      simpa using congrArg Prod.snd hab)
  · refine List.Pairwise.imp ?_ (pyRange_one_nodup _)
    intro a b hab p hp hq
    rcases List.mem_map.1 hp with ⟨x, _, rfl⟩
    rcases List.mem_map.1 hq with ⟨y, _, hyx⟩
    exact hab (congrArg Prod.fst hyx).symm

lemma interiorList_toFinset (n m : ℕ) :
    (interiorList n m).toFinset = interiorFinset n m := by
  apply Finset.ext
  intro c
  rw [List.mem_toFinset, mem_interiorList, interiorFinset, Finset.mem_product,
    Finset.mem_Ico, Finset.mem_Ico]
  tauto

lemma nbrs_nodup {c : ℕ × ℕ} (h1 : 1 ≤ c.1) (h2 : 1 ≤ c.2) : (nbrs c).Nodup := by
  rcases c with ⟨i, j⟩
  simp only at h1 h2
  simp [nbrs, List.nodup_cons, Prod.ext_iff]
  omega

lemma sum_map_ite_zero_of_not_mem {l : List (ℕ × ℕ)} {x : ℕ × ℕ} (f : ℕ × ℕ → ℚ)
    (h : x ∉ l) :
    (l.map (fun nb => if x = nb then f nb else 0)).sum = 0 := by
  induction l with
  | nil => rfl
  | cons a l ih =>
      rw [List.map_cons, List.sum_cons,
        if_neg (fun hh => h (by rw [hh]; exact List.mem_cons_self a l)),
        ih (fun hh => h (List.mem_cons_of_mem a hh)), add_zero]

lemma sum_map_ite_eq_of_nodup {l : List (ℕ × ℕ)} (hl : l.Nodup) (f : ℕ × ℕ → ℚ)
    (x : ℕ × ℕ) :
    (l.map (fun nb => if x = nb then f nb else 0)).sum = if x ∈ l then f x else 0 := by
  induction l with
  | nil => rfl
  | cons a l ih =>
      rw [List.nodup_cons] at hl
      rw [List.map_cons, List.sum_cons, ih hl.2]
      by_cases hxa : x = a
      · subst hxa
        rw [if_pos rfl, if_neg hl.1, if_pos (List.mem_cons_self x l), add_zero]
      · rw [if_neg hxa]
        by_cases hxl : x ∈ l
        · rw [if_pos hxl, if_pos (List.mem_cons_of_mem a hxl), zero_add]
        · rw [if_neg hxl, if_neg (by simp [hxa, hxl]), add_zero]

lemma sum_map_sub (l : List (ℕ × ℕ)) (f g : ℕ × ℕ → ℚ) :
    (l.map (fun nb => f nb - g nb)).sum = (l.map f).sum - (l.map g).sum := by
  induction l with
  | nil => simp
  | cons a l ih =>
      simp only [List.map_cons, List.sum_cons, ih]
      ring

/-- Closed form of a cell's contribution, for interior cells: it adds the
transfer toward `x` when `x` is one of the four neighbours, and removes the
total outgoing transfer when `x` is the cell itself. -/
lemma cellContrib_closed {t : ℚ} {Z : ℕ → ℕ → ℚ} {c : ℕ × ℕ} (h1 : 1 ≤ c.1)
    (h2 : 1 ≤ c.2) (x : ℕ × ℕ) :
    cellContrib t Z c x = (if x ∈ nbrs c then transferAmt t Z c x else 0) -
      (if x = c then ((nbrs c).map (transferAmt t Z c)).sum else 0) := by
  rw [cellContrib, sum_map_sub, sum_map_ite_eq_of_nodup (nbrs_nodup h1 h2)]
  congr 1
  by_cases hxc : x = c
  · simp [hxc]
  · simp [hxc]

/-- C4: one thermal-erosion pass is a Jacobi update.  Scanning the delta
buffer over ANY permutation `L` of the source's row-major interior scan —
all transfer amounts read from the iteration-start snapshot `Z` — yields at
every point exactly the simultaneous reference update `jacobiRef`; in
particular the source's own iteration (`thermalIterData`) equals the
reference, so the result is independent of scan order within the pass. -/
theorem thermal_core_jacobi (t : ℚ) (n m : ℕ) (Z : ℕ → ℕ → ℚ) (L : List (ℕ × ℕ))
    (hL : L.Perm (interiorList n m)) (x : ℕ × ℕ) :
    Z x.1 x.2 + thermalDelta t Z L x.1 x.2 = jacobiRef t n m Z x ∧
    thermalIterData t n m Z x.1 x.2 = jacobiRef t n m Z x := by
  have key : ∀ L' : List (ℕ × ℕ), L'.Perm (interiorList n m) →
      Z x.1 x.2 + thermalDelta t Z L' x.1 x.2 = jacobiRef t n m Z x := by
    intro L' hL'
    rw [thermalDelta_eq_sum]
    have hperm : (L'.map (fun c => cellContrib t Z c (x.1, x.2))).sum
        = ((interiorList n m).map (fun c => cellContrib t Z c (x.1, x.2))).sum :=
      (hL'.map _).sum_eq
    have hfin : ((interiorList n m).map (fun c => cellContrib t Z c (x.1, x.2))).sum
        = ∑ c ∈ interiorFinset n m, cellContrib t Z c x := by
      rw [← interiorList_toFinset]
      exact (List.sum_toFinset _ (interiorList_nodup n m)).symm
    have hsplit : ∑ c ∈ interiorFinset n m, cellContrib t Z c x
        = (∑ c ∈ interiorFinset n m, if x ∈ nbrs c then transferAmt t Z c x else 0)
          - (∑ c ∈ interiorFinset n m,
              if x = c then ((nbrs c).map (transferAmt t Z c)).sum else 0) := by
      rw [← Finset.sum_sub_distrib]
      apply Finset.sum_congr rfl
      intro c hc
      rw [interiorFinset, Finset.mem_product, Finset.mem_Ico, Finset.mem_Ico] at hc
      exact cellContrib_closed hc.1.1 hc.2.1 x
    have hlast : (∑ c ∈ interiorFinset n m,
          if x = c then ((nbrs c).map (transferAmt t Z c)).sum else 0)
        = if x ∈ interiorFinset n m then ((nbrs x).map (transferAmt t Z x)).sum else 0 :=
      Finset.sum_ite_eq (interiorFinset n m) x _
    rw [hperm, hfin, hsplit, hlast, jacobiRef]
    ring
  exact ⟨key L hL, key (interiorList n m) (List.Perm.refl _)⟩

/-- Witness for C4 on a concrete 3×3 peak field with the source's own scan
order. -/
theorem thermal_core_jacobi_witness :
    (interiorList 3 3).Perm (interiorList 3 3) ∧
    ((fun i j => if i = 1 ∧ j = 1 then (1:ℚ) else 0) 1 1
        + thermalDelta (1/4) (fun i j => if i = 1 ∧ j = 1 then (1:ℚ) else 0)
            (interiorList 3 3) 1 1
      = jacobiRef (1/4) 3 3 (fun i j => if i = 1 ∧ j = 1 then (1:ℚ) else 0) (1, 1) ∧
     thermalIterData (1/4) 3 3 (fun i j => if i = 1 ∧ j = 1 then (1:ℚ) else 0) 1 1
      = jacobiRef (1/4) 3 3 (fun i j => if i = 1 ∧ j = 1 then (1:ℚ) else 0) (1, 1)) :=
  ⟨List.Perm.refl _,
    thermal_core_jacobi (1/4) 3 3 (fun i j => if i = 1 ∧ j = 1 then (1:ℚ) else 0)
      (interiorList 3 3) (List.Perm.refl _) (1, 1)⟩
